/-
Verification of the asynch ClickHouse driver against its specification.

The definitions below are shallow embeddings of the Python source:
byte streams are `List Nat` (each element a byte value < 256), fallible
code returns `Except`/`Option`, and stateful code passes its state
explicitly.  Each definition's doc comment names the source function it
embeds.
-/
import Mathlib

namespace Asynch

/-! ### Varints (`asynch/proto/streams/buffered.py`)

`BufferedWriter.write_varint` calls `leb128.i.encode` (the *signed*
LEB128 encoder of the `leb128` package), `BufferedReader.read_varint`
collects bytes until one is below `0x80` and calls `leb128.u.decode`
(unsigned). -/

/-- Iteration core of `leb128.i.encode`; the fuel argument only bounds
the number of loop iterations (an iteration replaces `v` by `v / 128`,
or by `0` once, so `v + 1` iterations always suffice — see
`leb128_i_encode_go_fuel`). -/
def leb128_i_encode_go : Nat → Nat → List Nat
  | 0, _ => []
  | fuel + 1, v =>
    let b := v % 128
    let r := v / 128
    if r = 0 ∧ b < 64 then [b]
    else (b + 128) :: leb128_i_encode_go fuel r

/-- Embeds `leb128.i.encode` of the `leb128` package, as called by
`BufferedWriter.write_varint`, restricted to the nonnegative inputs the
driver passes (lengths, tags, and `u64` values).  The package's loop is
`byte = i & 0x7f; i >>= 7; stop when i == 0 and byte & 0x40 == 0
(or i == -1 and byte & 0x40, unreachable for nonnegative input)`. -/
def leb128_i_encode (v : Nat) : List Nat :=
  leb128_i_encode_go (v + 1) v

/-- Embeds `leb128.u.decode`: little-endian base-128 sum of the 7 data
bits of each byte. -/
def uleb128_decode : List Nat → Nat
  | [] => 0
  | b :: rest => b % 128 + 128 * uleb128_decode rest

/-- Embeds the byte-collecting loop of `BufferedReader.read_varint`:
`_read_one` bytes are appended until one has its continuation bit clear.
Running off the end of the stream is a failure (`IndexError`). -/
def read_varint_pkts : List Nat → Option (List Nat × List Nat)
  | [] => none
  | b :: rest =>
    if b < 128 then some ([b], rest)
    else
      match read_varint_pkts rest with
      | some (pkt, rem) => some (b :: pkt, rem)
      | none => none

/-- Embeds `BufferedReader.read_varint`: collect the continuation run,
then `leb128.u.decode` it.  Returns the value and the unconsumed rest of
the stream. -/
def read_varint (s : List Nat) : Option (Nat × List Nat) :=
  (read_varint_pkts s).map fun pr => (uleb128_decode pr.1, pr.2)

/-- Iteration core of `uleb128_spec_encode` (fuel bounds the iteration
count, `v + 1` always suffices). -/
def uleb128_spec_encode_go : Nat → Nat → List Nat
  | 0, _ => []
  | fuel + 1, v =>
    if v < 128 then [v]
    else (v % 128 + 128) :: uleb128_spec_encode_go fuel (v / 128)

/-- Follows the spec's words, for comparison with `leb128_i_encode`:
"little-endian base-128 (LEB128) ... 7 data bits per byte with the most
significant bit as continuation flag" — the canonical unsigned LEB128
encoding of `v`. -/
def uleb128_spec_encode (v : Nat) : List Nat :=
  uleb128_spec_encode_go (v + 1) v

/-! ### Fixed-width little-endian integers
(`write_int`/`read_int` with `struct` formats in
`asynch/proto/streams/buffered.py`). -/

/-- Little-endian byte serialization of `v` on `w` bytes, as produced by
`struct.pack` with a little-endian format of width `w` for an in-range
nonnegative value. -/
def natToLE : Nat → Nat → List Nat
  | 0, _ => []
  | w + 1, v => v % 256 :: natToLE w (v / 256)

/-- Little-endian byte deserialization, as `struct.unpack` of an
unsigned little-endian format. -/
def natFromLE : List Nat → Nat
  | [] => 0
  | b :: rest => b % 256 + 256 * natFromLE rest

/-- Reading `n` bytes from a byte list: the pure interface that
`BufferedReader.read_bytes` provides to the decoding layer when the
stream holds enough bytes (see the `read_bytes` theorems below). -/
def readN (n : Nat) (s : List Nat) : Option (List Nat × List Nat) :=
  if n ≤ s.length then some (s.take n, s.drop n) else none

/-- Embeds `BufferedWriter.write_int64` (`struct.pack("<q", v)`) for the
nonnegative in-range values (`0 ≤ v < 2^63`) the LowCardinality codec
passes. -/
def write_int64_nonneg (v : Nat) : List Nat :=
  natToLE 8 v

/-- Embeds `BufferedReader.read_uint64` (`struct.unpack("<Q", ·)`). -/
def read_uint64 (s : List Nat) : Option (Nat × List Nat) :=
  (readN 8 s).map fun pr => (natFromLE pr.1, pr.2)

/-! ### Strings on the wire
(`write_str`/`write_strings` and `read_str` in
`asynch/proto/streams/buffered.py`).  String payloads are byte lists
(the `.encode()` of Python strings, or raw `bytes` items). -/

/-- Embeds one item of `BufferedWriter.write_strings` (also
`write_str`): varint length then the raw bytes. -/
def write_str (b : List Nat) : List Nat :=
  leb128_i_encode b.length ++ b

/-- Embeds `BufferedReader.read_str`: varint length, then that many
bytes. -/
def read_str (s : List Nat) : Option (List Nat × List Nat) := do
  let (len, s1) ← read_varint s
  readN len s1

/-- Embeds `String.read_items` of
`asynch/proto/columns/stringcolumn.py`: read `n` length-prefixed
strings. -/
def read_strs : Nat → List Nat → Option (List (List Nat) × List Nat)
  | 0, s => some ([], s)
  | n + 1, s => do
    let (b, s1) ← read_str s
    let (bs, s2) ← read_strs n s1
    pure (b :: bs, s2)

/-! ### The buffered reader (`asynch/proto/streams/buffered.py`)

`BufferedReader` holds a `bytearray` buffer, a read `position`, a cached
`current_buffer_size`, and pulls chunks from an asyncio `StreamReader`.
We model the underlying channel as the list of chunks that successive
`reader.read(...)` calls return; once the list is exhausted the channel
is closed and every further `read` returns `b""` (asyncio's behaviour at
end of stream). -/

structure ReaderState where
  buffer : List Nat
  position : Nat
  currentBufferSize : Nat
  chunks : List (List Nat)
deriving DecidableEq, Repr

/-- Embeds `BufferedReader._read_into_buffer`: extend the buffer with
the next chunk the channel delivers and recompute
`current_buffer_size`. -/
def read_into_buffer (s : ReaderState) : ReaderState :=
  match s.chunks with
  | [] => { s with currentBufferSize := s.buffer.length }
  | c :: cs =>
    { s with
      buffer := s.buffer ++ c
      currentBufferSize := (s.buffer ++ c).length
      chunks := cs }

/-- Embeds `BufferedReader._reset_buffer`. -/
def reset_buffer (s : ReaderState) : ReaderState :=
  { s with position := 0, buffer := [] }

/-- One iteration of the `while length > 0` loop of
`BufferedReader.read_bytes`: refill on exhaustion, slice
`buffer[position : position + length]`, advance, accumulate.  Returns
the remaining `length`, the accumulated `packets` and the reader
state. -/
def read_bytes_iter (length : Nat) (acc : List Nat) (s : ReaderState) :
    Nat × List Nat × ReaderState :=
  let s1 := if s.position = s.currentBufferSize then read_into_buffer (reset_buffer s) else s
  let packet := (s1.buffer.drop s1.position).take length
  (length - packet.length, acc ++ packet,
   { s1 with position := s1.position + packet.length })

/-- Embeds `BufferedReader.read_bytes`.  The Python loop has no bound;
the `fuel` argument counts loop iterations, so a `none` result means the
loop was still running after `fuel` iterations. -/
def read_bytes_fuel : Nat → Nat → List Nat → ReaderState → Option (List Nat × ReaderState)
  | _, 0, acc, s => some (acc, s)
  | 0, _ + 1, _, _ => none
  | fuel + 1, length + 1, acc, s =>
    match read_bytes_iter (length + 1) acc s with
    | (l1, acc1, s1) => read_bytes_fuel fuel l1 acc1 s1

/-- A freshly constructed `BufferedReader` over a channel that will
deliver the given chunks. -/
def freshReader (cs : List (List Nat)) : ReaderState :=
  { buffer := [], position := 0, currentBufferSize := 0, chunks := cs }

/-- The `read_bytes` loop makes no progress at end of stream: stated as
a reusable proposition, proved below (`read_bytes_hangs_eof`). -/
def read_bytes_hangs_at_eof : Prop :=
  ∀ fuel n acc, 0 < n → read_bytes_fuel fuel n acc (freshReader []) = none

/-! ### Column codecs used by the claims
(`asynch/proto/columns/{base,stringcolumn,lowcardinalitycolumn,intcolumn}.py`)

Column values live in `Option (List Nat)`: `none` is Python `None`, and
`some bytes` a string payload (the `.encode()` of a `str`, or raw
`bytes`).  The `String` column's `null_value` is the empty string. -/

inductive CodecErr
  | keyErr
  | typeErr
  | idxErr
  | eof
  | rowsLen
  | unknownType
deriving DecidableEq, Repr

/-- Lifts a stream-read failure (`read_bytes` starving) into the codec
error monad. -/
def liftRead : Option α → Except CodecErr α
  | some a => .ok a
  | none => .error .eof

/-- Embeds `FormatColumn.write_items` for the unsigned key columns the
LowCardinality codec instantiates (`UInt8/16/32/64Column`):
`struct.pack` of `n` little-endian unsigned integers of byte width
`w`. -/
def write_uints (w : Nat) (ks : List Nat) : List Nat :=
  (ks.map (natToLE w)).flatten

/-- Embeds `FormatColumn.read_items` for the same columns. -/
def read_uints (w : Nat) : Nat → List Nat → Option (List Nat × List Nat)
  | 0, s => some ([], s)
  | n + 1, s => do
    let (b, s1) ← readN w s
    let (ks, s2) ← read_uints w n s1
    pure (natFromLE b :: ks, s2)

/-- Embeds `BufferedWriter.write_strings` (as called by
`String.write_items`). -/
def write_strs (items : List (List Nat)) : List Nat :=
  (items.map write_str).flatten

/-- `key_by_index_element.get(x)`: the dictionary maps each distinct
value to its insertion position, so the lookup is the value's position
in the first-occurrence list. -/
def py_dict_find (x : List Nat) : List (List Nat) → Option Nat
  | [] => Option.none
  | y :: ys => if y = x then some 0 else (py_dict_find x ys).map (· + 1)

/-- Embeds the nullable branch of the dictionary/keys construction in
`LowCardinalityColumn._write_data`: `index` starts with the nested
column's `null_value`, `None` items get key `0`, and other items get
`position-in-dictionary + 1`, the dictionary collecting first
occurrences.  `dict` accumulates `key_by_index_element`'s insertion
order (the written `index` minus its null slot); returns the final
dictionary and the key list. -/
def lc_build_nullable : List (Option (List Nat)) → List (List Nat) →
    List (List Nat) × List Nat
  | [], dict => (dict, [])
  | none :: rest, dict =>
    match lc_build_nullable rest dict with
    | (d, ks) => (d, 0 :: ks)
  | some x :: rest, dict =>
    match py_dict_find x dict with
    | some k =>
      match lc_build_nullable rest dict with
      | (d, ks) => (d, (k + 1) :: ks)
    | none =>
      match lc_build_nullable rest (dict ++ [x]) with
      | (d, ks) => (d, (dict.length + 1) :: ks)

/-- Embeds the non-nullable branch of the same construction: keys are
dictionary positions, no null slot. -/
def lc_build : List (List Nat) → List (List Nat) → List (List Nat) × List Nat
  | [], dict => (dict, [])
  | x :: rest, dict =>
    match py_dict_find x dict with
    | some k =>
      match lc_build rest dict with
      | (d, ks) => (d, k :: ks)
    | none =>
      match lc_build rest (dict ++ [x]) with
      | (d, ks) => (d, dict.length :: ks)

/-- `int(log(len(index), 2) / 8)` of
`LowCardinalityColumn._write_data`: for positive integer input,
`⌊⌊log2 n⌋ / 8⌋`.  Structural-fuel version of the base-2 logarithm
(`n` iterations always suffice since each halves the argument). -/
def log2_fuel : Nat → Nat → Nat
  | 0, _ => 0
  | fuel + 1, n => if 2 ≤ n then log2_fuel fuel (n / 2) + 1 else 0

/-- `⌊log2 n⌋` (0 at 0), used as `py_log2 n / 8` for the key-width
selection. -/
def py_log2 (n : Nat) : Nat :=
  log2_fuel n n

/-- `serialization_type = has_additional_keys_bit (1<<9) |
need_update_dictionary (1<<10) | int_type`. -/
def lc_serialization_type (t : Nat) : Nat :=
  1536 + t

/-- Embeds `LowCardinalityColumn._write_data`.  The first argument is
the nested column's `nullable` flag; the returned flag is its value
after the call (the nullable branch resets it to `False` and never
restores it).  `int_types` holds widths `2^0 .. 2^3` bytes; an
`int_type` of 4 or more is a `KeyError`.  A `None` item reaching the
non-nullable nested `String` column is a type failure
(`len(None)`/`.encode` in `write_strings`), modeled as an upfront
`typeErr`. -/
def lc_write_data (nestedNullable : Bool) (items : List (Option (List Nat))) :
    Except CodecErr (List Nat × Bool) := do
  let built ←
    if nestedNullable then
      pure (([] : List Nat) :: (lc_build_nullable items []).1, (lc_build_nullable items []).2)
  else
      if items.any (·.isNone) then Except.error CodecErr.typeErr
      else pure ((lc_build (items.filterMap id) []).1, (lc_build (items.filterMap id) []).2)
  let newFlag := false
  -- `Do not write anything for empty column.`
  if built.1.length = 0 then pure ([], newFlag)
  else
    let t := py_log2 built.1.length / 8
    if 4 ≤ t then Except.error CodecErr.keyErr
    else
      pure (write_int64_nonneg (lc_serialization_type t) ++
            write_int64_nonneg built.1.length ++
            write_strs built.1 ++
            write_int64_nonneg items.length ++
            write_uints (2 ^ t) built.2, newFlag)

/-- `tuple(index[x] for x in keys)` of
`LowCardinalityColumn._read_data`; a key outside the dictionary is an
`IndexError`. -/
def lc_map_keys (index : List (Option (List Nat))) : List Nat →
    Except CodecErr (List (Option (List Nat)))
  | [] => .ok []
  | k :: ks =>
    match index.get? k with
    | some v => (lc_map_keys index ks).map (v :: ·)
    | Option.none => .error .idxErr

/-- Embeds `LowCardinalityColumn._read_data`.  First argument: the
nested column's `nullable` flag at call time; the returned flag is its
value afterwards (reset to `False` unless `n = 0`, where the method
returns before touching it). -/
def lc_read_data (nestedNullable : Bool) (n : Nat) (s : List Nat) :
    Except CodecErr (List (Option (List Nat)) × List Nat × Bool) :=
  if n = 0 then .ok ([], s, nestedNullable)
  else do
    let (serType, s1) ← liftRead (read_uint64 s)
    let keyType := serType % 16
    if 4 ≤ keyType then Except.error CodecErr.keyErr
    else do
      let (indexSize, s2) ← liftRead (read_uint64 s1)
      let (rawIndex, s3) ← liftRead (read_strs indexSize s2)
      -- `index = (None,) + index[1:]` when the nested column was nullable
      let index : List (Option (List Nat)) :=
        if nestedNullable then none :: (rawIndex.drop 1).map some
        else rawIndex.map some
      let (_, s4) ← liftRead (read_uint64 s3)
      let (keys, s5) ← liftRead (read_uints (2 ^ keyType) n s4)
      let vals ← lc_map_keys index keys
      pure (vals, s5, false)

/-! ### Block serialization (`asynch/proto/streams/block.py`)

The type-spec registry is `get_column_by_spec`
(`asynch/proto/columns/__init__.py`), modeled for the specs the claims
exercise.  `"String"` constructs a working string codec
(`create_string_column`).  A spec starting with `"LowCardinality"`
dispatches (`columns/__init__.py:126`) to
`create_low_cardinality_column(spec, create_column_with_options,
column_options)` — three arguments to the two-parameter factory of
`columns/lowcardinalitycolumn.py:7` — so in this source tree the
lookup itself raises `TypeError` for every `LowCardinality(...)` spec,
before any codec method can run.  Any other spec of interest raises
`UnknownTypeError`. -/

/-- Byte list of an ASCII string (its UTF-8 encoding; all
type-specification strings involved are ASCII). -/
def strBytes (s : String) : List Nat :=
  s.data.map Char.toNat

/-- On-wire text of the type specifications the claims exercise, as
written by `BlockWriter.write` via `write_str(col_type)`. -/
def STRING_SPEC : List Nat := strBytes "String"

def LC_STRING_SPEC : List Nat := strBytes "LowCardinality(String)"

def LC_NULLABLE_STRING_SPEC : List Nat := strBytes "LowCardinality(Nullable(String))"

/-- The codecs `get_column_by_spec` can actually construct among the
modeled specs: only the `String` one (the `LowCardinality(...)` branch
raises `TypeError` in the registry, see the section comment). -/
inductive RegistryColumn
  | stringColumn
deriving DecidableEq, Repr

/-- Embeds `get_column_by_spec` on the modeled specs: `"String"`
constructs the string codec; the `LowCardinality(...)` specs raise
`TypeError` (`create_low_cardinality_column` receives three arguments
but takes two); anything else raises `UnknownTypeError`. -/
def get_column_by_spec_model (b : List Nat) : Except CodecErr RegistryColumn :=
  if b = STRING_SPEC then .ok .stringColumn
  else if b = LC_STRING_SPEC ∨ b = LC_NULLABLE_STRING_SPEC then .error .typeErr
  else .error .unknownType

/-- `write_state_prefix` of a registry-built codec: the base `Column`
implementation, which writes nothing. -/
def reg_write_state_header : RegistryColumn → List Nat
  | .stringColumn => []

/-- `read_state_prefix` of a registry-built codec: the base `Column`
implementation, which reads nothing. -/
def reg_read_state_header : RegistryColumn → List Nat → Except CodecErr (List Nat)
  | .stringColumn, s => .ok s

/-- `write_data` of a registry-built codec: the `String` column writes
`write_strings(items)` (a `None` item fails there). -/
def reg_write_data : RegistryColumn → List (Option (List Nat)) → Except CodecErr (List Nat)
  | .stringColumn, items =>
    if items.any (·.isNone) then .error .typeErr
    else .ok (write_strs (items.filterMap id))

/-- `read_data(n)` of a registry-built codec. -/
def reg_read_data : RegistryColumn → Nat → List Nat →
    Except CodecErr (List (Option (List Nat)) × List Nat)
  | .stringColumn, n, s => (liftRead (read_strs n s)).map fun pr => (pr.1.map some, pr.2)

/-- Modelled from the spec: `asynch/proto/block.py` is not under `src/`.
§4.D/§6 — "BlockInfo uses field-ids 1 (bool `is_overflows`) and 2
(Int32 `bucket_num`), terminated by field-id 0"; field ids are varints.
`bucketNum` carries the Int32 as its value modulo `2^32`. -/
structure BlockInfo where
  isOverflows : Bool
  bucketNum : Nat
deriving DecidableEq, Repr

/-- Modelled from the spec (see `BlockInfo`): the serialized form of the
block-info header. -/
def block_info_write (i : BlockInfo) : List Nat :=
  leb128_i_encode 1 ++ [if i.isOverflows then 1 else 0] ++
  leb128_i_encode 2 ++ natToLE 4 (i.bucketNum % 2 ^ 32) ++
  leb128_i_encode 0

/-- Modelled from the spec (see `BlockInfo`): reading the block-info
header; the fuel bounds the field loop. -/
def block_info_read : Nat → BlockInfo → List Nat → Option (BlockInfo × List Nat)
  | 0, _, _ => none
  | fuel + 1, i, s => do
    let (fid, s1) ← read_varint s
    if fid = 1 then do
      let (ov, s2) ← readN 1 s1
      block_info_read fuel { i with isOverflows := ov.headD 0 ≠ 0 } s2
    else if fid = 2 then do
      let (bn, s2) ← readN 4 s1
      block_info_read fuel { i with bucketNum := natFromLE bn } s2
    else if fid = 0 then
      some (i, s1)
    else none

/-- Modelled from the spec: `asynch/proto/constants.py` is not under
`src/`; the exact numeric threshold is immaterial to the claims (the
claims instantiate revisions on one side of it), the reference
protocol's value is retained. -/
def DBMS_MIN_REVISION_WITH_BLOCK_INFO : Nat := 51903

/-- A column-oriented block: `columns_with_types` (name and
type-specification strings, both as byte lists) and the per-column
value lists. -/
structure ColBlock where
  info : BlockInfo
  columnsWithTypes : List (List Nat × List Nat)
  data : List (List (Option (List Nat)))
deriving DecidableEq, Repr

/-- Modelled from the spec: `asynch/proto/block.py` is not under
`src/`.  §3 — a block's columns all have the same row count; the row
count of a column-oriented block is its first column's length (0
without columns). -/
def block_num_rows (b : ColBlock) : Nat :=
  (b.data.headD []).length

/-- The per-column loop of `BlockWriter.write`: for each
`(col_name, col_type)` write the name string and the type string, then
— under the source's condition `if n_columns:`, which is always true
inside this loop — `write_column` on `block.get_column_by_index(i)`.
An index past `data` raises `ValueError("Different rows length")`;
otherwise `write_column` first constructs the codec
(`get_column_by_spec(col_type)` — `TypeError` for the
`LowCardinality(...)` specs) and only then writes its state prefix and
data.  On a raise the buffered bytes are never flushed (`finalize` is
skipped), so an error carries no output. -/
def block_write_cols (nCols : Nat) :
    List (List Nat × List Nat) → List (List (Option (List Nat))) →
    Except CodecErr (List Nat)
  | [], _ => .ok []
  | (name, specB) :: cols, data => do
    let payload ←
      if nCols ≠ 0 then
        match data with
        | [] => Except.error CodecErr.rowsLen
        | items :: _ => do
          let codec ← get_column_by_spec_model specB
          let db ← reg_write_data codec items
          pure (reg_write_state_header codec ++ db)
      else pure []
    let rest ← block_write_cols nCols cols (data.drop 1)
    pure (write_str name ++ write_str specB ++ payload ++ rest)

/-- Embeds `BlockWriter.write`: optional `BlockInfo` (gated on the
server revision), varint `n_columns`, varint `n_rows`, then the
per-column loop. -/
def block_write (revision : Nat) (b : ColBlock) : Except CodecErr (List Nat) := do
  let colsBytes ← block_write_cols b.columnsWithTypes.length b.columnsWithTypes b.data
  pure ((if DBMS_MIN_REVISION_WITH_BLOCK_INFO ≤ revision
         then block_info_write b.info else []) ++
        leb128_i_encode b.columnsWithTypes.length ++
        leb128_i_encode (block_num_rows b) ++
        colsBytes)

/-- The per-column loop of `BlockReader.read`: read name and type
strings and record them; only under the reader's condition
`if n_rows:` is `read_column` run, which constructs the codec
(`get_column_by_spec(column_type)`) and reads its state prefix and
`n_rows` values.  For a zero-row block the codec is never constructed —
in particular the `LowCardinality(...)` registry `TypeError` is not
reached — and only the names and types are recorded, with `data` left
empty. -/
def block_read_cols (nRows : Nat) :
    Nat → List Nat →
    Except CodecErr ((List (List Nat × List Nat) × List (List (Option (List Nat)))) × List Nat)
  | 0, s => .ok (([], []), s)
  | n + 1, s => do
    let (name, s1) ← liftRead (read_str s)
    let (specB, s2) ← liftRead (read_str s1)
    if nRows ≠ 0 then do
      let codec ← get_column_by_spec_model specB
      let s3 ← reg_read_state_header codec s2
      let (col, s4) ← reg_read_data codec nRows s3
      let ((cols, datas), s5) ← block_read_cols nRows n s4
      pure (((name, specB) :: cols, col :: datas), s5)
    else do
      let ((cols, datas), s3) ← block_read_cols nRows n s2
      pure (((name, specB) :: cols, datas), s3)

/-- Embeds `BlockReader.read`: optional `BlockInfo`, varint
`n_columns`, varint `n_rows`, per-column loop, and assembly of the
column-oriented block. -/
def block_read (revision : Nat) (s : List Nat) : Except CodecErr (ColBlock × List Nat) := do
  let (info, s1) ←
    if DBMS_MIN_REVISION_WITH_BLOCK_INFO ≤ revision then
      liftRead (block_info_read (s.length + 1) ⟨false, 0⟩ s)
    else pure (⟨false, 0⟩, s)
  let (nCols, s2) ← liftRead (read_varint s1)
  let (nRows, s3) ← liftRead (read_varint s2)
  let ((cols, datas), s4) ← block_read_cols nRows nCols s3
  pure ({ info := info, columnsWithTypes := cols, data := datas }, s4)

/-! ### The connection pool (`asynch/pool.py`, class `Pool`)

State of a `Pool` built by `Pool.__init__` plus the connections it owns.
A connection is `alive` while its transport is usable; `connect(...)`
produces alive connections.  Every public operation
(`connection()`, `startup()`, `shutdown()`) runs under `self._lock`, so
a sequence of operations is modeled as a fold of atomic steps; the only
intra-operation concurrency is among the `_create_connection` tasks of
`_fill_with_connections`, handled inside `pool_fill`. -/

structure PoolConn where
  id : Nat
  alive : Bool
deriving DecidableEq, Repr

structure PoolState where
  minsize : Nat
  maxsize : Nat
  opened : Option Bool
  closed : Option Bool
  free : List PoolConn
  acquired : List PoolConn
  nextId : Nat
deriving DecidableEq, Repr

inductive PoolErr
  | noFreeConn
  | notBelongs
  | valueErr
deriving DecidableEq, Repr

/-- `Pool.connections = len(self._acquired_connections) +
len(self._free_connections)`. -/
def pool_connections (s : PoolState) : Nat :=
  s.free.length + s.acquired.length

/-- `collections.deque.append` on the pool's queues, which
`Pool.__init__` constructs as `deque(maxlen=maxsize)`
(`pool.py:122-123`): appending to a deque already holding `maxlen`
elements silently discards elements from the opposite (left) end, so
at most `maxlen` remain — in particular an append onto a full queue
evicts its head. -/
def deque_append (maxlen : Nat) (q : List PoolConn) (c : PoolConn) : List PoolConn :=
  (q ++ [c]).drop ((q ++ [c]).length - maxlen)

/-- A `Pool(minsize, maxsize)` right after `__init__` (which requires
`1 ≤ maxsize` and `minsize ≤ maxsize`): both queues empty, `_opened`
and `_closed` both `None`. -/
def pool_init (minsize maxsize : Nat) : PoolState :=
  { minsize := minsize, maxsize := maxsize, opened := none, closed := none,
    free := [], acquired := [], nextId := 0 }

/-- Embeds `Pool._fill_with_connections(n)` together with the
`_create_connection` tasks it spawns.

`to_create = n if n else self.minsize`: Python treats both `None` and
`0` as falsy, so a zero argument falls back to `minsize` as well.  The
`to_create < 0` guard cannot trigger for the `Nat` counts involved.
`asyncio.wait(fs=[])` raises `ValueError` when the task set is empty.

The `to_create` tasks run while `connection()`/`startup()` hold the
pool lock.  Each task body (`_create_connection`) reads
`self.connections` synchronously, then suspends awaiting
`connect(...)` (network I/O), and appends to `free` only after that
await completes.  All tasks are scheduled before any connect can
complete, so under asyncio's cooperative scheduling every task performs
its size check against the same initial count before any task appends.
A task that observes a full (or overfull) pool raises
(`AsynchPoolError`/`RuntimeError`), but `asyncio.wait` stores task
exceptions without re-raising them, so `_fill_with_connections` returns
normally either way.  Each successful task appends its fresh connection
onto the bounded `free` deque (`deque_append`, with eviction at
`maxlen = maxsize`); the appends land in task-creation order. -/
def pool_fill (n : Option Nat) (s : PoolState) : Except PoolErr PoolState :=
  let toCreate := match n with
    | some k => if k = 0 then s.minsize else k
    | none => s.minsize
  if toCreate = 0 then .error .valueErr
  else
    let c := pool_connections s
    if s.maxsize ≤ c then .ok s
    else
      .ok { s with
        free := (List.range toCreate).foldl
          (fun q i => deque_append s.maxsize q ⟨s.nextId + i, true⟩) s.free,
        nextId := s.nextId + toCreate }

/-- Embeds `Pool._acquire_connection`: raise when `free` is empty, else
pop its head and append it onto the bounded `acquired` deque
(`deque_append`: an append at `maxlen = maxsize` evicts the head). -/
def pool_acquire_connection (s : PoolState) : Except PoolErr (PoolConn × PoolState) :=
  match s.free with
  | [] => .error .noFreeConn
  | c :: rest =>
    .ok (c, { s with free := rest, acquired := deque_append s.maxsize s.acquired c })

/-- Embeds `Pool._release_connection`: raise when the connection is not
in `acquired`, else remove it (`deque.remove`, first occurrence) and
append it onto the bounded `free` deque (`deque_append`: an append at
`maxlen = maxsize` evicts the head). -/
def pool_release_connection (c : PoolConn) (s : PoolState) : Except PoolErr PoolState :=
  if c ∈ s.acquired then
    .ok { s with acquired := s.acquired.erase c,
                 free := deque_append s.maxsize s.free c }
  else .error .notBelongs

/-- Embeds the acquisition half of the `Pool.connection()` context
manager (up to and including `_acquire_connection`), run under
`self._lock`: when `free` is empty, fill with
`min(self.minsize, self.maxsize - self.connections)` connections, then
pop. -/
def pool_connection_acquire (s : PoolState) : Except PoolErr (PoolConn × PoolState) := do
  let s1 ←
    if s.free.isEmpty then
      pool_fill (some (min s.minsize (s.maxsize - pool_connections s))) s
    else pure s
  pool_acquire_connection s1

/-- Embeds `Pool.startup`: a no-op when `_opened` is truthy, otherwise
fill with `minsize` connections under the lock, set `_opened`, and flip
`_closed` back to `False` when it was `True`. -/
def pool_startup (s : PoolState) : Except PoolErr PoolState :=
  if s.opened = some true then .ok s
  else do
    let s1 ← pool_fill (some s.minsize) s
    pure { s1 with
      opened := some true,
      closed := if s1.closed = some true then some false else s1.closed }

/-- Embeds `Pool.shutdown`: close every free connection, then every
acquired one, empty both queues, mark the pool not opened and
closed. -/
def pool_shutdown (s : PoolState) : PoolState :=
  { s with free := [], acquired := [], opened := some false, closed := some true }

/-- The operations of the claims' sequences. -/
inductive PoolOp
  | borrow
  | giveBack (c : PoolConn)
  | startup
  | shutdown
deriving DecidableEq, Repr

/-- One pool operation as a state transformer.  An operation that
raises leaves behind exactly the mutations already performed: the only
mid-operation failure points (`pool_fill`'s `ValueError` and
`_acquire_connection`/`_release_connection` raising) occur before any
queue mutation of the enclosing operation. -/
def pool_step (s : PoolState) : PoolOp → PoolState
  | .borrow =>
    let s1 :=
      if s.free.isEmpty then
        match pool_fill (some (min s.minsize (s.maxsize - pool_connections s))) s with
        | .ok s' => s'
        | .error _ => s
      else s
    match pool_acquire_connection s1 with
    | .ok (_, s') => s'
    | .error _ => s1
  | .giveBack c =>
    match pool_release_connection c s with
    | .ok s' => s'
    | .error _ => s
  | .startup =>
    match pool_startup s with
    | .ok s' => s'
    | .error _ => s
  | .shutdown => pool_shutdown s

/-- A sequence of pool operations. -/
def pool_run (s : PoolState) (ops : List PoolOp) : PoolState :=
  ops.foldl pool_step s

/-! ### The query-in-flight guard
(`asynch/proto/connection.py` and `asynch/proto/context.py`)

Only the two flags the claim is about are modeled; the server's
behaviour during one `execute` call is summarized by a `QueryOutcome`:
either the result is drained to `END_OF_STREAM`, or an exception of a
given class is raised mid-call (e.g. a `ServerException` decoded from
an EXCEPTION packet). -/

inductive PyExc
  | consumedQuery
  | serverExc
  | plainExc
  | keyboardInterrupt
deriving DecidableEq, Repr

structure ConnFlags where
  connected : Bool
  isQueryExecuting : Bool
deriving DecidableEq, Repr

inductive QueryOutcome
  | success
  | raises (e : PyExc)
deriving DecidableEq, Repr

/-- Embeds `Connection.check_query_execution`: raise
`PartiallyConsumedQueryError` when a query is in flight, else set the
flag. -/
def check_query_execution (s : ConnFlags) : Except PyExc ConnFlags :=
  if s.isQueryExecuting then .error .consumedQuery
  else .ok { s with isQueryExecuting := true }

/-- Embeds `Connection.reset_state` (as far as the modeled flags go). -/
def conn_reset_state (_ : ConnFlags) : ConnFlags :=
  { connected := false, isQueryExecuting := false }

/-- Embeds `Connection.disconnect`. -/
def conn_disconnect (s : ConnFlags) : ConnFlags :=
  conn_reset_state { s with connected := false }

/-- Embeds `Connection.connect`: disconnect first when already
connected (which resets `is_query_executing`!), then
`_init_connection` sets `connected`. -/
def conn_connect (s : ConnFlags) : ConnFlags :=
  let s1 := if s.connected then conn_disconnect s else s
  { s1 with connected := true }

/-- Embeds `Connection.force_connect`: guard check, then connect when
not connected or when the liveness ping fails. -/
def force_connect (s : ConnFlags) (pingOk : Bool) : Except PyExc ConnFlags := do
  let s1 ← check_query_execution s
  if !s1.connected then pure (conn_connect s1)
  else if !pingOk then pure (conn_connect s1)
  else pure s1

/-- Embeds `Connection.execute` as far as the two flags go: the
`ExecuteContext` enter (`force_connect`), the query body (summarized by
`outcome`; draining to `END_OF_STREAM` is the only place
`_receive_packet` clears `is_query_executing`), and
`ExecuteContext.__aexit__`, whose `exc_type in [Exception,
KeyboardInterrupt]` test is exact-class membership — a subclass such as
`ServerException` does not match, so no disconnect happens for it.
Returns the exception escaping `execute` (if any) and the final
flags. -/
def execute_model (s : ConnFlags) (pingOk : Bool) (outcome : QueryOutcome) :
    Option PyExc × ConnFlags :=
  match force_connect s pingOk with
  | .error e => (some e, s)
  | .ok s1 =>
    let body : Option PyExc × ConnFlags :=
      match outcome with
      | .success => (none, { s1 with isQueryExecuting := false })
      | .raises e => (some e, s1)
    match body with
    | (some e, s2) =>
      if e = .plainExc ∨ e = .keyboardInterrupt then (some e, conn_disconnect s2)
      else (some e, s2)
    | (none, s2) => (none, s2)

/-! ### Parameter escaping and substitution
(`asynch/proto/utils/escape.py` and `Connection.substitute_params`)

`PyVal` covers the value kinds `escape_param` dispatches on.  The
isinstance chain checks `datetime` before `date` (a subclass), and the
final `else` returns the item itself — an `int` is passed through
unescaped and only stringified by the later formatting. -/

inductive PyVal
  | none
  | str (s : String)
  | int (n : Int)
  | date (y m d : Nat)
  | datetime (y mo d h mi sec : Nat)
  | list (xs : List PyVal)
  | tup (xs : List PyVal)
  | enumMember (value : PyVal)
  | uuid (canonical : String)

inductive SubErr
  | valueErr
  | keyErr
deriving DecidableEq, Repr

/-- `escape_chars_map` of `escape.py` as a per-character rewrite. -/
def escape_char (c : Char) : String :=
  if c = '\x08' then "\\b"
  else if c = '\x0C' then "\\f"
  else if c = '\x0D' then "\\r"
  else if c = '\x0A' then "\\n"
  else if c = '\x09' then "\\t"
  else if c = '\x00' then "\\0"
  else if c = '\x07' then "\\a"
  else if c = '\x0B' then "\\v"
  else if c = '\\' then "\\\\"
  else if c = '\x27' then "\\\x27"
  else String.mk [c]

/-- The string-escaping of `escape_param`'s `string_types` branch. -/
def escape_str (s : String) : String :=
  String.join (s.data.map escape_char)

/-- Zero-padded decimal rendering:  `strftime`'s `%Y` (width 4) and
`%m %d %H %M %S` (width 2). -/
def pad_nat (width n : Nat) : String :=
  let s := toString n
  if s.length < width then String.mk (List.replicate (width - s.length) '0') ++ s else s

/-- Python `str(...)` on the values `escape_param` can produce (used by
`text_type(...)` in the list/tuple branches and by the final query
formatting). -/
def py_str : PyVal → String
  | .none => "None"
  | .str s => s
  | .int n => toString n
  | .date y m d => pad_nat 4 y ++ "-" ++ pad_nat 2 m ++ "-" ++ pad_nat 2 d
  | .datetime y mo d h mi sec =>
    pad_nat 4 y ++ "-" ++ pad_nat 2 mo ++ "-" ++ pad_nat 2 d ++ " " ++
    pad_nat 2 h ++ ":" ++ pad_nat 2 mi ++ ":" ++ pad_nat 2 sec
  | .list _ => "[...]"
  | .tup _ => "(...)"
  | .enumMember v => py_str v
  | .uuid s => s

mutual

/-- Embeds `escape_param`. -/
def escape_param : PyVal → PyVal
  | .none => .str "NULL"
  | .datetime y mo d h mi sec =>
    .str ("\x27" ++ pad_nat 4 y ++ "-" ++ pad_nat 2 mo ++ "-" ++ pad_nat 2 d ++ " " ++
          pad_nat 2 h ++ ":" ++ pad_nat 2 mi ++ ":" ++ pad_nat 2 sec ++ "\x27")
  | .date y m d =>
    .str ("\x27" ++ pad_nat 4 y ++ "-" ++ pad_nat 2 m ++ "-" ++ pad_nat 2 d ++ "\x27")
  | .str s => .str ("\x27" ++ escape_str s ++ "\x27")
  | .list xs => .str ("[" ++ String.intercalate ", " (escape_param_each xs) ++ "]")
  | .tup xs => .str ("(" ++ String.intercalate ", " (escape_param_each xs) ++ ")")
  | .enumMember v => escape_param v
  | .uuid s => .str ("\x27" ++ s ++ "\x27")
  | .int n => .int n

/-- The `text_type(escape_param(x)) for x in item` generator of the
list/tuple branches. -/
def escape_param_each : List PyVal → List String
  | [] => []
  | x :: xs => py_str (escape_param x) :: escape_param_each xs

end

/-- Ordered-dict insertion with overwrite, as a dict comprehension
builds its result. -/
def dict_insert (k : String) (v : PyVal) : List (String × PyVal) → List (String × PyVal)
  | [] => [(k, v)]
  | (k1, v1) :: rest => if k1 = k then (k, v) :: rest else (k1, v1) :: dict_insert k v rest

/-- The comprehension of `escape_params`:
`{key: escape_param(value) for key, value in params.keys()}`.  It
iterates the *keys*; tuple-unpacking a key string succeeds only when
the key has exactly two characters (yielding those characters), and
raises `ValueError` otherwise. -/
def escape_params_go : List (String × PyVal) → List (String × PyVal) →
    Except SubErr (List (String × PyVal))
  | [], acc => .ok acc
  | (k, _) :: rest, acc =>
    match k.data with
    | [a, b] =>
      escape_params_go rest
        (dict_insert (String.mk [a]) (escape_param (.str (String.mk [b]))) acc)
    | _ => .error .valueErr

/-- Embeds `escape_params` of `asynch/proto/utils/escape.py`. -/
def escape_params (params : List (String × PyVal)) : Except SubErr (List (String × PyVal)) :=
  escape_params_go params []

/-- Splits a replacement field at the closing brace
(`str.format` scanning). -/
def py_take_field : List Char → Option (List Char × List Char)
  | [] => Option.none
  | c :: rest =>
    if c = '\x7d' then some ([], rest)
    else (py_take_field rest).map fun pr => (c :: pr.1, pr.2)

/-- `query.format(**escaped)`: replacement fields are looked up by
name (`KeyError` when missing), doubled braces are literals, stray
braces are errors.  The fuel is the character count (each step consumes
at least one character). -/
def py_format_go (env : List (String × PyVal)) : Nat → List Char → Except SubErr (List Char)
  | 0, _ => .error .valueErr
  | _ + 1, [] => .ok []
  | fuel + 1, c :: rest =>
    if c = '\x7b' then
      match rest with
      | c2 :: rest2 =>
        if c2 = '\x7b' then
          match py_format_go env fuel rest2 with
          | .ok out => .ok (c :: out)
          | .error e => .error e
        else
          match py_take_field rest with
          | Option.none => .error .valueErr
          | some (fld, rest2) =>
            match env.lookup (String.mk fld) with
            | Option.none => .error .keyErr
            | some v =>
              match py_format_go env fuel rest2 with
              | .ok out => .ok ((py_str v).data ++ out)
              | .error e => .error e
      | [] => .error .valueErr
    else if c = '\x7d' then
      match rest with
      | c2 :: rest2 =>
        if c2 = '\x7d' then
          match py_format_go env fuel rest2 with
          | .ok out => .ok (c :: out)
          | .error e => .error e
        else .error .valueErr
      | [] => .error .valueErr
    else
      match py_format_go env fuel rest with
      | .ok out => .ok (c :: out)
      | .error e => .error e

/-- Embeds `substitute_params` of `asynch/proto/utils/escape.py`: the
`try` only catches `KeyError` (re-raised as `KeyError`); the
`ValueError` from `escape_params`' unpacking propagates. -/
def substitute_params (query : String) (params : List (String × PyVal)) : Except SubErr String :=
  match escape_params params with
  | .error e => .error e
  | .ok escaped =>
    match py_format_go escaped (query.data.length + 1) query.data with
    | .ok out => .ok (String.mk out)
    | .error e => .error e

/-- Embeds `Connection.substitute_params` of
`asynch/proto/connection.py`: same `escape_params`, then the `%`
formatting operator (passed in as a parameter — its details do not
matter to the claims, the escape step precedes it). -/
def conn_substitute_params (percentFormat : String → List (String × PyVal) → String)
    (query : String) (params : List (String × PyVal)) : Except SubErr String :=
  match escape_params params with
  | .error e => .error e
  | .ok escaped => .ok (percentFormat query escaped)

/-! ### DSN query parameters (`asynch/proto/utils/dsn.py`)

The loop `for name, value in parse_qs(url.query).items(): ...` of
`parse_dsn`.  Its input is modeled as the association list `parse_qs`
produces (each query name with its list of values).  Reserved names go
through a conversion (`asbool`, `float`, `int`, `getattr(ssl, ·)`, or
identity) into `kwargs`; whether a conversion succeeds is abstracted by
the `convOk` parameter, and `kwargs` entries keep the raw first value
(the converted representation does not matter to the claim).  Any other
name lands in the server-settings map with its first value. -/

inductive DsnErr
  | convErr
deriving DecidableEq, Repr

/-- The reserved query keys of the `parse_dsn` dispatch. -/
def dsn_reserved_keys : List String :=
  ["compression", "secure", "client_name", "connect_timeout",
   "send_receive_timeout", "sync_request_timeout", "compress_block_size",
   "verify", "ssl_version", "ca_certs", "ciphers", "alt_hosts"]

/-- Embeds the query-parameter loop of `parse_dsn`: returns the
`(kwargs, settings)` pair it accumulates, or the exception a failing
conversion raises. -/
def parse_dsn_query (convOk : String → String → Bool) :
    List (String × List String) →
    Except DsnErr (List (String × String) × List (String × String))
  | [] => .ok ([], [])
  | (name, vals) :: rest =>
    match vals with
    | [] => parse_dsn_query convOk rest
    | v :: _ =>
      if name ∈ dsn_reserved_keys then
        if convOk name v then
          match parse_dsn_query convOk rest with
          | .ok (kw, st) => .ok ((name, v) :: kw, st)
          | .error e => .error e
        else .error .convErr
      else
        match parse_dsn_query convOk rest with
        | .ok (kw, st) => .ok (kw, (name, v) :: st)
        | .error e => .error e

/-! ## Helper lemmas -/

theorem leb128_go_pkts (f : Nat) : ∀ (v : Nat) (rest : List Nat), v < f →
    read_varint_pkts (leb128_i_encode_go f v ++ rest) =
      some (leb128_i_encode_go f v, rest) := by
  induction f with
  | zero => intro v rest h; omega
  | succ f ih =>
    intro v rest h
    simp only [leb128_i_encode_go]
    split
    · next hc =>
      have hb : v % 128 < 128 := Nat.mod_lt _ (by omega)
      simp [read_varint_pkts, hb]
    · next hc =>
      have hr : v / 128 < f := by
        rcases Nat.eq_zero_or_pos (v / 128) with h0 | h0
        · have : ¬ (v % 128 < 64) := fun hlt => hc ⟨h0, hlt⟩
          omega
        · omega
      have hge : ¬ (v % 128 + 128 < 128) := by omega
      simp only [List.cons_append, read_varint_pkts, if_neg hge, List.append_eq,
        ih _ rest hr]

theorem leb128_go_decode (f : Nat) : ∀ v : Nat, v < f →
    uleb128_decode (leb128_i_encode_go f v) = v := by
  induction f with
  | zero => intro v h; omega
  | succ f ih =>
    intro v h
    simp only [leb128_i_encode_go]
    split
    · next hc =>
      simp only [uleb128_decode]
      omega
    · next hc =>
      have hr : v / 128 < f := by
        rcases Nat.eq_zero_or_pos (v / 128) with h0 | h0
        · have : ¬ (v % 128 < 64) := fun hlt => hc ⟨h0, hlt⟩
          omega
        · omega
      simp only [uleb128_decode, ih _ hr]
      omega

theorem read_varint_encode (v : Nat) (rest : List Nat) :
    read_varint (leb128_i_encode v ++ rest) = some (v, rest) := by
  simp only [read_varint, leb128_i_encode,
    leb128_go_pkts (v + 1) v rest (Nat.lt_succ_self v), Option.map_some]
  simp [leb128_go_decode (v + 1) v (Nat.lt_succ_self v)]

theorem natToLE_length (w : Nat) : ∀ v, (natToLE w v).length = w := by
  induction w with
  | zero => intro v; rfl
  | succ w ih => intro v; simp [natToLE, ih]

theorem natFromLE_toLE (w : Nat) : ∀ v, v < 256 ^ w →
    natFromLE (natToLE w v) = v := by
  induction w with
  | zero =>
    intro v h
    simp [Nat.pow_zero] at h
    simp [natToLE, natFromLE, h]
  | succ w ih =>
    intro v h
    have hdiv : v / 256 < 256 ^ w := by
      apply Nat.div_lt_of_lt_mul
      calc v < 256 ^ (w + 1) := h
        _ = 256 * 256 ^ w := by ring
    simp only [natToLE, natFromLE, ih _ hdiv]
    omega

theorem readN_exact (l rest : List Nat) : readN l.length (l ++ rest) = some (l, rest) := by
  simp [readN]

theorem readN_len (n : Nat) (l rest : List Nat) (h : l.length = n) :
    readN n (l ++ rest) = some (l, rest) := by
  subst h
  exact readN_exact l rest

theorem read_uint64_write (v : Nat) (rest : List Nat) (h : v < 2 ^ 64) :
    read_uint64 (write_int64_nonneg v ++ rest) = some (v, rest) := by
  have h256 : v < 256 ^ 8 := by norm_num at h ⊢; omega
  simp only [read_uint64, write_int64_nonneg]
  rw [readN_len 8 _ rest (natToLE_length 8 v)]
  simp [natFromLE_toLE 8 v h256]

theorem read_str_write (b : List Nat) (rest : List Nat) :
    read_str (write_str b ++ rest) = some (b, rest) := by
  simp only [read_str, write_str, List.append_assoc, read_varint_encode]
  simp [readN_exact]

theorem read_strs_write (items : List (List Nat)) : ∀ rest,
    read_strs items.length (write_strs items ++ rest) = some (items, rest) := by
  induction items with
  | nil => intro rest; simp [read_strs, write_strs]
  | cons b bs ih =>
    intro rest
    simp only [write_strs, List.map_cons, List.flatten_cons, List.length_cons,
      List.append_assoc]
    simp only [read_strs, read_str_write b, Option.bind_eq_bind, Option.some_bind]
    have := ih rest
    simp only [write_strs] at this
    simp [this]

theorem read_uints_write (w : Nat) (keys : List Nat) : ∀ rest,
    (∀ k ∈ keys, k < 256 ^ w) →
    read_uints w keys.length (write_uints w keys ++ rest) = some (keys, rest) := by
  induction keys with
  | nil => intro rest _; simp [read_uints, write_uints]
  | cons k ks ih =>
    intro rest hk
    have hklt : k < 256 ^ w := hk k (by simp)
    simp only [write_uints, List.map_cons, List.flatten_cons, List.length_cons,
      List.append_assoc]
    simp only [read_uints, Option.bind_eq_bind]
    rw [readN_len w _ _ (natToLE_length w k)]
    have := ih rest (fun x hx => hk x (by simp [hx]))
    simp only [write_uints] at this
    simp [this, natFromLE_toLE w k hklt]

theorem log2_fuel_lt (f : Nat) : ∀ n, n ≤ f → n < 2 ^ (log2_fuel f n + 1) := by
  induction f with
  | zero =>
    intro n h
    have : n = 0 := by omega
    subst this
    decide
  | succ f ih =>
    intro n h
    simp only [log2_fuel]
    split
    · next h2 =>
      have hd : n / 2 ≤ f := by omega
      have h1 := ih (n / 2) hd
      rw [pow_succ]
      omega
    · next h2 =>
      norm_num
      omega

theorem log2_fuel_le (f : Nat) : ∀ n k, n ≤ f → 0 < k → n < 2 ^ k → log2_fuel f n < k := by
  induction f with
  | zero =>
    intro n k h hk _
    have : n = 0 := by omega
    subst this
    simpa [log2_fuel] using hk
  | succ f ih =>
    intro n k h hk hn
    simp only [log2_fuel]
    split
    · next h2 =>
      match k, hk with
      | 1, _ =>
        simp only [pow_one] at hn
        omega
      | k + 2, _ =>
        have hd : n / 2 ≤ f := by omega
        have hhalf : n / 2 < 2 ^ (k + 1) := by
          have : (2 : Nat) ^ (k + 2) = 2 ^ (k + 1) * 2 := by rw [pow_succ]
          omega
        have := ih (n / 2) (k + 1) hd (by omega) hhalf
        omega
    · next h2 => exact hk

theorem lc_band (L : Nat) (h : L < 32) : L + 1 ≤ 8 * 2 ^ (L / 8) := by
  revert h
  revert L
  decide

theorem lc_width_bound (fullLen : Nat) (h1 : 1 ≤ fullLen) (h2 : fullLen < 2 ^ 32) :
    py_log2 fullLen / 8 ≤ 3 ∧ fullLen ≤ 2 ^ (8 * 2 ^ (py_log2 fullLen / 8)) := by
  have hL : py_log2 fullLen < 32 :=
    log2_fuel_le fullLen fullLen 32 le_rfl (by omega) h2
  have hlt : fullLen < 2 ^ (py_log2 fullLen + 1) :=
    log2_fuel_lt fullLen fullLen le_rfl
  refine ⟨by omega, ?_⟩
  have hband : py_log2 fullLen + 1 ≤ 8 * 2 ^ (py_log2 fullLen / 8) := lc_band _ hL
  calc fullLen ≤ 2 ^ (py_log2 fullLen + 1) := le_of_lt hlt
    _ ≤ 2 ^ (8 * 2 ^ (py_log2 fullLen / 8)) := Nat.pow_le_pow_right (by omega) hband

theorem py_dict_find_some (x : List Nat) : ∀ (l : List (List Nat)) (k : Nat),
    py_dict_find x l = some k → k < l.length ∧ l.get? k = some x := by
  intro l
  induction l with
  | nil => intro k h; simp [py_dict_find] at h
  | cons y ys ih =>
    intro k h
    simp only [py_dict_find] at h
    split at h
    · next heq =>
      cases h
      subst heq
      simp
    · next heq =>
      rcases Option.map_eq_some'.mp h with ⟨k', hk', rfl⟩
      rcases ih k' hk' with ⟨hlt, hget⟩
      exact ⟨by simpa using Nat.succ_lt_succ hlt, by simpa using hget⟩

theorem lc_build_nullable_sound : ∀ (items : List (Option (List Nat)))
    (dict d : List (List Nat)) (ks : List Nat),
    lc_build_nullable items dict = (d, ks) →
    (∃ ext, d = dict ++ ext) ∧
    List.Forall₂ (fun x k =>
      (x = Option.none ↔ k = 0) ∧ k ≤ d.length ∧
      (Option.none :: d.map some).get? k = some x) items ks := by
  intro items
  induction items with
  | nil =>
    intro dict d ks h
    simp only [lc_build_nullable] at h
    cases h
    exact ⟨⟨[], by simp⟩, List.Forall₂.nil⟩
  | cons x rest ih =>
    intro dict d ks h
    match x with
    | Option.none =>
      simp only [lc_build_nullable] at h
      rcases hrec : lc_build_nullable rest dict with ⟨d0, ks0⟩
      rw [hrec] at h
      dsimp only at h
      cases h
      rcases ih dict d ks0 hrec with ⟨hext, hall⟩
      refine ⟨hext, List.Forall₂.cons ⟨by simp, by omega, by simp⟩ hall⟩
    | some xv =>
      simp only [lc_build_nullable] at h
      cases hfind : py_dict_find xv dict with
      | none =>
        rw [hfind] at h
        rcases hrec : lc_build_nullable rest (dict ++ [xv]) with ⟨d0, ks0⟩
        rw [hrec] at h
        dsimp only at h
        cases h
        rcases ih (dict ++ [xv]) d ks0 hrec with ⟨⟨ext, hext⟩, hall⟩
        have hlen : d.length = dict.length + 1 + ext.length := by
          subst hext
          simp only [List.length_append, List.length_cons, List.length_nil]
        refine ⟨⟨[xv] ++ ext, by simp [hext]⟩,
          List.Forall₂.cons ⟨by simp, by omega, ?_⟩ hall⟩
        have hget : d.get? dict.length = some xv := by
          subst hext
          rw [List.append_assoc, List.get?_append_right (by omega)]
          simp
        rw [List.get?_cons_succ, List.get?_map, hget]
        rfl
      | some k =>
        rw [hfind] at h
        rcases hrec : lc_build_nullable rest dict with ⟨d0, ks0⟩
        rw [hrec] at h
        dsimp only at h
        cases h
        rcases ih dict d ks0 hrec with ⟨⟨ext, hext⟩, hall⟩
        rcases py_dict_find_some xv dict k hfind with ⟨hklt, hkget⟩
        have hlen : d.length = dict.length + ext.length := by
          subst hext
          simp only [List.length_append]
        refine ⟨⟨ext, hext⟩, List.Forall₂.cons ⟨by simp, by omega, ?_⟩ hall⟩
        have hget : d.get? k = some xv := by
          subst hext
          rw [List.get?_append hklt]
          exact hkget
        rw [List.get?_cons_succ, List.get?_map, hget]
        rfl

theorem lc_map_keys_ok (index : List (Option (List Nat)))
    (vs : List (Option (List Nat))) (keys : List Nat)
    (h : List.Forall₂ (fun x k => index.get? k = some x) vs keys) :
    lc_map_keys index keys = .ok vs := by
  induction h with
  | nil => rfl
  | cons hxk _ ih =>
    simp only [lc_map_keys, hxk, ih, Except.map]

theorem take_split_head (seg flat : List Nat) (n : Nat) :
    (seg ++ flat).take n =
      seg.take n ++ ((seg.drop (min n seg.length) ++ flat).take (n - min n seg.length)) := by
  rcases le_or_lt seg.length n with h | h
  · rw [min_eq_right h, List.drop_length, List.nil_append,
      List.take_append_eq_append_take, List.take_of_length_le h]
  · rw [min_eq_left (le_of_lt h), Nat.sub_self, List.take_zero, List.append_nil,
      List.take_append_eq_append_take, Nat.sub_eq_zero_of_le (le_of_lt h),
      List.take_zero, List.append_nil]

theorem read_bytes_loop_ok (fuel : Nat) : ∀ (n : Nat) (acc : List Nat) (s : ReaderState),
    n < fuel →
    s.currentBufferSize = s.buffer.length →
    s.position ≤ s.buffer.length →
    (∀ c ∈ s.chunks, c ≠ []) →
    n ≤ (s.buffer.length - s.position) + (s.chunks.map List.length).sum →
    (read_bytes_fuel fuel n acc s).map Prod.fst =
      some (acc ++ (s.buffer.drop s.position ++ s.chunks.flatten).take n) := by
  induction fuel with
  | zero => intro n acc s h; omega
  | succ fuel ih =>
    intro n acc s hf hwf hpos hch hav
    match n with
    | 0 => simp [read_bytes_fuel]
    | n + 1 =>
      rcases s with ⟨buffer, position, bufSize, chunks⟩
      simp only at hwf hpos hch hav
      subst hwf
      by_cases hfull : position = buffer.length
      · -- buffer exhausted: reset, then pull the next chunk
        subst hfull
        match chunks with
        | [] =>
          simp only [List.map_nil, List.sum_nil] at hav
          omega
        | c :: cs =>
          have hc : c ≠ [] := hch c (by simp)
          have hclen : 1 ≤ c.length := by
            cases c with
            | nil => exact absurd rfl hc
            | cons a as => simp
          have hsum : n + 1 ≤ c.length + (cs.map List.length).sum := by
            simpa using hav
          have hiter : read_bytes_iter (n + 1) acc
              ⟨buffer, buffer.length, buffer.length, c :: cs⟩ =
              (n + 1 - min (n + 1) c.length, acc ++ c.take (n + 1),
               ⟨c, min (n + 1) c.length, c.length, cs⟩) := by
            simp [read_bytes_iter, reset_buffer, read_into_buffer, List.length_take]
          have hrec := ih (n + 1 - min (n + 1) c.length) (acc ++ c.take (n + 1))
            ⟨c, min (n + 1) c.length, c.length, cs⟩
            (by omega) rfl (by dsimp only; omega) (fun x hx => hch x (by simp [hx]))
            (by dsimp only; omega)
          simp only at hrec
          simp only [read_bytes_fuel, hiter]
          rw [hrec, List.drop_length, List.nil_append, List.flatten_cons,
            take_split_head c cs.flatten (n + 1), List.append_assoc]
      · -- serve from the current buffer
        have hlt : position < buffer.length := by omega
        have hiter : read_bytes_iter (n + 1) acc ⟨buffer, position, buffer.length, chunks⟩ =
            (n + 1 - min (n + 1) (buffer.drop position).length,
             acc ++ (buffer.drop position).take (n + 1),
             ⟨buffer, position + min (n + 1) (buffer.drop position).length,
              buffer.length, chunks⟩) := by
          simp [read_bytes_iter, hfull, List.length_take]
        have hposle : position + min (n + 1) (buffer.drop position).length ≤ buffer.length := by
          have := List.length_drop position buffer
          omega
        have hrec := ih (n + 1 - min (n + 1) (buffer.drop position).length)
          (acc ++ (buffer.drop position).take (n + 1))
          ⟨buffer, position + min (n + 1) (buffer.drop position).length, buffer.length, chunks⟩
          (by
            have := List.length_drop position buffer
            omega)
          rfl hposle hch
          (by
            dsimp only
            have := List.length_drop position buffer
            omega)
        simp only at hrec
        have hd2 : buffer.drop (position + min (n + 1) (buffer.drop position).length) =
            (buffer.drop position).drop (min (n + 1) (buffer.drop position).length) := by
          rw [List.drop_drop, Nat.add_comm]
        rw [hd2] at hrec
        simp only [read_bytes_fuel, hiter]
        rw [hrec, take_split_head (buffer.drop position) chunks.flatten (n + 1),
          List.append_assoc]

theorem read_bytes_eof_no_result (fuel : Nat) : ∀ (n : Nat) (acc : List Nat), 0 < n →
    read_bytes_fuel fuel n acc (freshReader []) = none := by
  induction fuel with
  | zero =>
    intro n acc h
    match n, h with
    | n + 1, _ => rfl
  | succ fuel ih =>
    intro n acc h
    match n, h with
    | n + 1, _ =>
      have hiter : read_bytes_iter (n + 1) acc (freshReader []) =
          (n + 1, acc, freshReader []) := by
        simp [read_bytes_iter, freshReader, reset_buffer, read_into_buffer]
      simp only [read_bytes_fuel, hiter]
      exact ih (n + 1) acc (Nat.succ_pos n)

theorem read_bytes_hangs_eof : read_bytes_hangs_at_eof :=
  fun fuel n acc h => read_bytes_eof_no_result fuel n acc h

theorem except_bind_ok {α β ε : Type} (a : α) (f : α → Except ε β) :
    (Except.ok a : Except ε α) >>= f = f a := rfl

theorem except_bind_pure {α β ε : Type} (a : α) (f : α → Except ε β) :
    (pure a : Except ε α) >>= f = f a := rfl

theorem except_bind_error {α β ε : Type} (e : ε) (f : α → Except ε β) :
    (Except.error e : Except ε α) >>= f = Except.error e := rfl

theorem except_map_ok {α β ε : Type} (a : α) (f : α → β) :
    (Except.ok a : Except ε α).map f = Except.ok (f a) := rfl

/-! ## Claim C1 -/

/-- Claim C1, as stated, is false: when the pool is OPENED, `free` is
empty and the connection count equals `maxsize`, `pool.connection()`
does not block — it raises `AsynchPoolError` ("no free connection").
Witnessed on `Pool(minsize=1, maxsize=1)` after `startup()` and one
outstanding borrow: the pool is OPENED and exhausted, and the next
acquisition returns the pool error. -/
theorem pool_exhausted_errors_cex :
    (pool_run (pool_init 1 1) [PoolOp.startup, PoolOp.borrow]).opened = some true ∧
    (pool_run (pool_init 1 1) [PoolOp.startup, PoolOp.borrow]).free = [] ∧
    pool_connections (pool_run (pool_init 1 1) [PoolOp.startup, PoolOp.borrow]) =
      (pool_run (pool_init 1 1) [PoolOp.startup, PoolOp.borrow]).maxsize ∧
    pool_connection_acquire (pool_run (pool_init 1 1) [PoolOp.startup, PoolOp.borrow]) =
      Except.error PoolErr.noFreeConn :=
  ⟨rfl, rfl, rfl, rfl⟩

/-- Claim C1 (corrected): there is no admission semaphore; whenever
`free` is empty and the pool already holds `maxsize` connections, a
caller of `connection()` does not block until a connection is returned —
the acquisition fails immediately with `AsynchPoolError` ("no free
connection in the pool"); the creation attempts all raise "is already
full" inside `asyncio` tasks whose exceptions are swallowed
(`minsize > 0`; with `minsize = 0` the failure is a `ValueError` from
`asyncio.wait` on an empty task set instead). -/
theorem pool_exhausted_errors (s : PoolState)
    (hfree : s.free = []) (hfull : pool_connections s = s.maxsize)
    (hmin : 0 < s.minsize) :
    pool_connection_acquire s = Except.error PoolErr.noFreeConn := by
  have hempty : s.free.isEmpty = true := by
    rw [hfree]
    rfl
  have hmm : min s.minsize (s.maxsize - pool_connections s) = 0 := by
    omega
  simp only [pool_connection_acquire, hempty, if_pos, hmm, pool_fill]
  have hmin0 : ¬ (s.minsize = 0) := by omega
  simp only [if_pos rfl, if_neg hmin0, if_pos (le_of_eq hfull.symm)]
  rw [except_bind_ok]
  simp only [pool_acquire_connection, hfree]

theorem pool_exhausted_errors_witness :
    (pool_run (pool_init 2 2) [PoolOp.startup, PoolOp.borrow, PoolOp.borrow]).free = [] ∧
    pool_connections (pool_run (pool_init 2 2) [PoolOp.startup, PoolOp.borrow, PoolOp.borrow]) =
      (pool_run (pool_init 2 2) [PoolOp.startup, PoolOp.borrow, PoolOp.borrow]).maxsize ∧
    0 < (pool_run (pool_init 2 2) [PoolOp.startup, PoolOp.borrow, PoolOp.borrow]).minsize ∧
    pool_connection_acquire (pool_run (pool_init 2 2)
      [PoolOp.startup, PoolOp.borrow, PoolOp.borrow]) = Except.error PoolErr.noFreeConn :=
  ⟨rfl, rfl, by decide,
   pool_exhausted_errors _ rfl rfl (by decide)⟩

/-! ## Claim C2 -/

/-- Claim C2, as stated, is false: `pool.connection()` performs no
liveness check.  A pool whose `free` head is a dead connection lends
that dead connection unchanged, and the release path pushes it back
onto `free` unchanged — nothing is pinged, refreshed, closed or
dropped. -/
theorem pool_borrow_dead_conn_cex :
    pool_connection_acquire
        { minsize := 1, maxsize := 1, opened := some true, closed := none,
          free := [⟨0, false⟩], acquired := [], nextId := 1 } =
      Except.ok (⟨0, false⟩,
        { minsize := 1, maxsize := 1, opened := some true, closed := none,
          free := [], acquired := [⟨0, false⟩], nextId := 1 }) ∧
    (PoolConn.mk 0 false).alive = false ∧
    pool_release_connection ⟨0, false⟩
        { minsize := 1, maxsize := 1, opened := some true, closed := none,
          free := [], acquired := [⟨0, false⟩], nextId := 1 } =
      Except.ok
        { minsize := 1, maxsize := 1, opened := some true, closed := none,
          free := [⟨0, false⟩], acquired := [], nextId := 1 } :=
  ⟨rfl, rfl, rfl⟩

/-- Claim C2 (corrected): connections lent by `pool.connection()` are
not liveness-checked.  When `free` is nonempty the acquisition pops its
head and yields it unchanged (no ping, no reconnect, no close-and-pop-
next), moving it onto the bounded `acquired` deque; and on caller exit
the released connection is removed from `acquired` and appended back
onto the bounded `free` deque unchanged (no refresh, no
close-and-drop, no top-up) — `deque_append` being the plain deque
append, whose only effect beyond appending is the `maxlen = maxsize`
eviction of the queue's head when the queue is already full. -/
theorem pool_borrow_no_liveness_check (s t : PoolState) (c : PoolConn)
    (rest : List PoolConn) (hfree : s.free = c :: rest) (hacq : c ∈ t.acquired) :
    pool_connection_acquire s =
      Except.ok (c, { s with free := rest,
                             acquired := deque_append s.maxsize s.acquired c }) ∧
    pool_release_connection c t =
      Except.ok { t with acquired := t.acquired.erase c,
                         free := deque_append t.maxsize t.free c } := by
  constructor
  · have hne : s.free.isEmpty = false := by
      rw [hfree]
      rfl
    simp only [pool_connection_acquire, hne, pool_acquire_connection, hfree,
      List.isEmpty_cons, Bool.false_eq_true, if_false, except_bind_pure]
  · simp only [pool_release_connection, if_pos hacq]

theorem pool_borrow_no_liveness_check_witness :
    pool_connection_acquire
        { minsize := 1, maxsize := 2, opened := some true, closed := none,
          free := [⟨5, true⟩], acquired := [], nextId := 6 } =
      Except.ok (⟨5, true⟩,
        { minsize := 1, maxsize := 2, opened := some true, closed := none,
          free := [], acquired := [⟨5, true⟩], nextId := 6 }) ∧
    pool_release_connection ⟨5, true⟩
        { minsize := 1, maxsize := 2, opened := some true, closed := none,
          free := [], acquired := [⟨5, true⟩], nextId := 6 } =
      Except.ok
        { minsize := 1, maxsize := 2, opened := some true, closed := none,
          free := [⟨5, true⟩], acquired := [], nextId := 6 } := by
  have h := pool_borrow_no_liveness_check
    { minsize := 1, maxsize := 2, opened := some true, closed := none,
      free := [⟨5, true⟩], acquired := [], nextId := 6 }
    { minsize := 1, maxsize := 2, opened := some true, closed := none,
      free := [], acquired := [⟨5, true⟩], nextId := 6 }
    ⟨5, true⟩ [] rfl (by decide)
  exact ⟨h.1, h.2⟩

/-! ## Claim C3 -/

/-- Claim C3 is right and the code violates it: on
`Pool(minsize=2, maxsize=3)`, one `connection()` borrow performed
before `startup()` (allowed: both only take the pool lock) leaves 2
connections; `startup()` then runs `_fill_with_connections(minsize)`,
whose two creation tasks both check `connections == maxsize` against
the same count 2 before either appends (each task suspends in
`connect(...)` between its check and its append), so both append and
`|free| + |acquired|` reaches 4 > maxsize = 3. -/
theorem pool_size_exceeds_maxsize :
    pool_connections (pool_run (pool_init 2 3) [PoolOp.borrow, PoolOp.startup]) = 4 ∧
    (pool_run (pool_init 2 3) [PoolOp.borrow, PoolOp.startup]).maxsize = 3 ∧
    (pool_run (pool_init 2 3) [PoolOp.borrow, PoolOp.startup]).opened = some true :=
  ⟨rfl, rfl, rfl⟩

/-! ## Claim C4 -/

/-- Claim C4 is right and the code violates it: when `execute` raises a
`ServerException` decoded from an EXCEPTION packet (so END_OF_STREAM is
never observed), `ExecuteContext.__aexit__`'s test
`exc_type in [Exception, KeyboardInterrupt]` is exact-class membership
and does not match the subclass, so no disconnect happens and
`is_query_executing` stays `True`; the next `execute` on the connection
is then rejected with `PartiallyConsumedQueryError`. -/
theorem execute_flag_stays_set :
    execute_model ⟨true, false⟩ true (QueryOutcome.raises PyExc.serverExc) =
      (some PyExc.serverExc, ⟨true, true⟩) ∧
    (execute_model ⟨true, true⟩ true QueryOutcome.success).1 = some PyExc.consumedQuery ∧
    execute_model ⟨true, false⟩ true QueryOutcome.success = (none, ⟨true, false⟩) :=
  ⟨rfl, rfl, rfl⟩

/-! ## Claim C5 -/

/-- Claim C5, as stated, is false in its end-of-stream half: with the
channel closed before delivering anything and `read_bytes(1)` pending,
one loop iteration returns exactly the state it started from (the
refill appends `b""` and the slice is empty), so the loop spins forever
— after 100 iterations it is still running, and no end-of-stream error
is ever raised by `BufferedReader` (only the `CompressedBufferedReader`
subclass raises `EOFError`). -/
theorem read_bytes_eof_spins_cex :
    read_bytes_iter 1 [] (freshReader []) = (1, [], freshReader []) ∧
    read_bytes_fuel 100 1 [] (freshReader []) = none :=
  ⟨rfl, rfl⟩

/-- Claim C5 (corrected): `read_bytes(n)` returns exactly `n` bytes
when the channel delivers at least `n` bytes, looping across any number
of buffer refills (`n + 1` loop iterations always suffice); but when
the channel closes before `n` bytes have been delivered the call does
not terminate with an error — the loop iterates without progress
forever (no fuel bound ever produces a result). -/
theorem read_bytes_exact_or_hangs (cs : List (List Nat)) (n : Nat)
    (hne : ∀ c ∈ cs, c ≠ []) (hn : n ≤ (cs.map List.length).sum) :
    (read_bytes_fuel (n + 1) n [] (freshReader cs)).map Prod.fst =
      some (cs.flatten.take n) ∧
    read_bytes_hangs_at_eof := by
  constructor
  · have h := read_bytes_loop_ok (n + 1) n [] (freshReader cs)
      (Nat.lt_succ_self n) rfl (Nat.le_refl 0) hne
      (by simpa [freshReader] using hn)
    simpa [freshReader] using h
  · exact read_bytes_hangs_eof

theorem read_bytes_exact_or_hangs_witness :
    (∀ c ∈ [[7], [8, 9]], c ≠ ([] : List Nat)) ∧
    (read_bytes_fuel 3 2 [] (freshReader [[7], [8, 9]])).map Prod.fst =
      some (([[7], [8, 9]] : List (List Nat)).flatten.take 2) ∧
    read_bytes_hangs_at_eof :=
  ⟨by decide,
   (read_bytes_exact_or_hangs [[7], [8, 9]] 2 (by decide) (by decide)).1,
   (read_bytes_exact_or_hangs [[7], [8, 9]] 2 (by decide) (by decide)).2⟩

/-! ## Claim C6 -/

/-- Claim C6, as stated, is false in its encoding half: for `v = 64`
the bytes emitted by `write_varint` (via the signed encoder
`leb128.i.encode`) are `0xC0 0x00`, not the LEB128 encoding `0x40` of
the spec's words — a redundant continuation byte is appended whenever
the top data bit of the final digit is set. -/
theorem write_varint_not_canonical_cex :
    leb128_i_encode 64 = [192, 0] ∧ uleb128_spec_encode 64 = [64] ∧
    leb128_i_encode 64 ≠ uleb128_spec_encode 64 :=
  ⟨rfl, rfl, by decide⟩

/-- Claim C6 (corrected): `write_varint(v)` emits the signed-LEB128
(`leb128.i`) encoding of the nonnegative value — the base-128 digits of
`v`, each with the continuation bit except possibly one extra trailing
`0x00` byte when the top data bit of the final digit is set — and
`read_varint` applied to those bytes (followed by anything) returns `v`
and consumes exactly the encoding. -/
theorem write_varint_read_varint_roundtrip (v : Nat) (rest : List Nat)
    (h : v < 2 ^ 64) :
    read_varint (leb128_i_encode v ++ rest) = some (v, rest) :=
  read_varint_encode v rest

theorem write_varint_read_varint_roundtrip_witness :
    (64 : Nat) < 2 ^ 64 ∧
    read_varint (leb128_i_encode 64 ++ [5, 6]) = some (64, [5, 6]) :=
  ⟨by decide, write_varint_read_varint_roundtrip 64 [5, 6] (by decide)⟩

/-! ## Claim C7 -/

/-- Claim C7 is right and the code violates it: `BlockWriter.write`
guards the per-column payload with `if n_columns:` — always true
inside the loop over columns — instead of the reader's `if n_rows:`.
On zero-row blocks with columns the divergence is a crash, not the
claimed name-and-type-only serialization.  At `revision 0` (below the
BlockInfo threshold): `BlockReader.read` of a serialized zero-row
one-column block succeeds, returning a block whose `data` holds no
column list at all (its `if n_rows:` skips the per-column payload);
but `BlockWriter.write` of that very block raises
`ValueError("Different rows length")` — `get_column_by_index(0)` is
reached and fails.  And with the empty column present explicitly, a
`LowCardinality(String)` column makes the writer raise `TypeError`
inside `get_column_by_spec` (three arguments to the two-parameter
`create_low_cardinality_column`), still before any state prefix —
while the reader at zero rows never constructs that codec.  Under the
claim's `if n_rows > 0` condition neither write would have entered the
per-column payload path. -/
theorem block_write_zero_rows_payload :
    block_read 0 (leb128_i_encode 1 ++ leb128_i_encode 0 ++ write_str [120] ++
        write_str STRING_SPEC) =
      Except.ok (⟨⟨false, 0⟩, [([120], STRING_SPEC)], []⟩, []) ∧
    block_num_rows ⟨⟨false, 0⟩, [([120], STRING_SPEC)], []⟩ = 0 ∧
    block_write 0 ⟨⟨false, 0⟩, [([120], STRING_SPEC)], []⟩ =
      Except.error CodecErr.rowsLen ∧
    block_num_rows ⟨⟨false, 0⟩, [([120], LC_STRING_SPEC)], [[]]⟩ = 0 ∧
    block_write 0 ⟨⟨false, 0⟩, [([120], LC_STRING_SPEC)], [[]]⟩ =
      Except.error CodecErr.typeErr ∧
    get_column_by_spec_model LC_STRING_SPEC = Except.error CodecErr.typeErr :=
  ⟨rfl, rfl, rfl, rfl, rfl, rfl⟩

/-! ## Claim C8 -/

/-- Claim C8 is right and the code violates it: `escape_params`
iterates `params.keys()` and tuple-unpacks each *key* as
`key, value`, so for any parameter dict with a key that is not exactly
two characters long (for example `{"x": 1}`) the whole substitution
raises `ValueError` ("not enough values to unpack") instead of
producing the substituted query — only `KeyError` is caught by
`substitute_params`.  Even a two-character key substitutes garbage: for
`{"ab": 1}` the escaped dict becomes `{"a": "'b'"}`, so the query's
`{ab}` field raises `KeyError`.  The per-kind escaping itself
(`escape_param`) is correct — `None` becomes `NULL`, dates use the
strftime forms — but no caller can reach it with its intended
argument. -/
theorem substitute_params_crashes :
    substitute_params "SELECT {x}" [("x", PyVal.int 1)] = Except.error SubErr.valueErr ∧
    substitute_params "SELECT {ab}" [("ab", PyVal.int 1)] = Except.error SubErr.keyErr ∧
    (∀ fmt, conn_substitute_params fmt "SELECT %(x)s" [("x", PyVal.int 1)] =
      Except.error SubErr.valueErr) ∧
    escape_param PyVal.none = PyVal.str "NULL" ∧
    escape_param (PyVal.date 2025 5 21) = PyVal.str "\x272025-05-21\x27" :=
  ⟨rfl, rfl, fun _ => rfl, rfl, rfl⟩

/-! ## Claim C10 -/

/-- Claim C10 (confirmed): the query-parameter loop of `parse_dsn`
skips every parameter whose value list is empty, uses only the first
value of a multi-valued parameter, and the returned server-settings map
consists exactly of the non-reserved names with at least one value,
each mapped to its first value (and the reserved names, analogously,
all go to `kwargs`). -/
theorem parse_dsn_query_first_values (convOk : String → String → Bool) :
    ∀ (qs : List (String × List String)) (kw st : List (String × String)),
    parse_dsn_query convOk qs = .ok (kw, st) →
    st = (qs.filter (fun p => !decide (p.1 ∈ dsn_reserved_keys) && !p.2.isEmpty)).map
        (fun p => (p.1, p.2.headD "")) ∧
    kw = (qs.filter (fun p => decide (p.1 ∈ dsn_reserved_keys) && !p.2.isEmpty)).map
        (fun p => (p.1, p.2.headD "")) := by
  intro qs
  induction qs with
  | nil =>
    intro kw st h
    simp only [parse_dsn_query] at h
    cases h
    simp
  | cons p rest ih =>
    intro kw st h
    rcases p with ⟨name, vals⟩
    match vals with
    | [] =>
      simp only [parse_dsn_query] at h
      rcases ih kw st h with ⟨h1, h2⟩
      refine ⟨?_, ?_⟩
      · rw [h1]
        simp [List.filter_cons]
      · rw [h2]
        simp [List.filter_cons]
    | v :: vt =>
      simp only [parse_dsn_query] at h
      by_cases hres : name ∈ dsn_reserved_keys
      · rw [if_pos hres] at h
        by_cases hconv : convOk name v
        · rw [if_pos hconv] at h
          rcases hrec : parse_dsn_query convOk rest with e | pr
          · rw [hrec] at h
            simp at h
          · rcases pr with ⟨kw0, st0⟩
            rw [hrec] at h
            simp only [Except.ok.injEq, Prod.mk.injEq] at h
            obtain ⟨hkw, hst⟩ := h
            subst hkw
            subst hst
            rcases ih kw0 st0 hrec with ⟨h1, h2⟩
            refine ⟨?_, ?_⟩
            · rw [h1]
              simp [List.filter_cons, hres]
            · rw [h2]
              simp [List.filter_cons, hres]
        · rw [if_neg hconv] at h
          simp at h
      · rw [if_neg hres] at h
        rcases hrec : parse_dsn_query convOk rest with e | pr
        · rw [hrec] at h
          simp at h
        · rcases pr with ⟨kw0, st0⟩
          rw [hrec] at h
          simp only [Except.ok.injEq, Prod.mk.injEq] at h
          obtain ⟨hkw, hst⟩ := h
          subst hkw
          subst hst
          rcases ih kw0 st0 hrec with ⟨h1, h2⟩
          refine ⟨?_, ?_⟩
          · rw [h1]
            simp [List.filter_cons, hres]
          · rw [h2]
            simp [List.filter_cons, hres]

theorem parse_dsn_query_first_values_witness :
    parse_dsn_query (fun _ _ => true)
        [("a", []), ("b", ["1", "2"]), ("secure", ["true"]), ("c", ["x"])] =
      Except.ok ([("secure", "true")], [("b", "1"), ("c", "x")]) ∧
    [("b", "1"), ("c", "x")] =
      (([("a", ([] : List String)), ("b", ["1", "2"]), ("secure", ["true"]),
         ("c", ["x"])]).filter
        (fun p => !decide (p.1 ∈ dsn_reserved_keys) && !p.2.isEmpty)).map
        (fun p => (p.1, p.2.headD "")) :=
  ⟨rfl,
   (parse_dsn_query_first_values (fun _ _ => true)
     [("a", []), ("b", ["1", "2"]), ("secure", ["true"]), ("c", ["x"])]
     [("secure", "true")] [("b", "1"), ("c", "x")] rfl).1⟩

/-! ## Claim C9 -/

theorem forall2_right_mem {α β : Type} {R : α → β → Prop} :
    ∀ {vs : List α} {keys : List β}, List.Forall₂ R vs keys →
    ∀ k ∈ keys, ∃ x, R x k := by
  intro vs keys h
  induction h with
  | nil => intro k hk; simp at hk
  | cons hxk htail ih =>
    intro k hk
    rcases List.mem_cons.mp hk with rfl | hk2
    · exact ⟨_, hxk⟩
    · exact ih k hk2

theorem liftRead_some {α : Type} (a : α) : liftRead (some a) = Except.ok a := rfl

/-- Claim C9, as stated, is false for "the same codec instance": the
nullable branch of `_write_data` resets the nested column's `nullable`
flag to `False` and never restores it, so a read with the *same*
instance observes a non-nullable nested column, skips the
`(None,) + index[1:]` substitution, and returns the inner null value
(the empty string) where `None` was written: writing `[None]` and
reading 1 item back with the same instance yields `[""]`, not
`[None]`. -/
theorem lc_same_instance_drops_none_cex :
    (do
      let wr ← lc_write_data true [Option.none]
      let rd ← lc_read_data wr.2 1 wr.1
      pure rd.1 : Except CodecErr (List (Option (List Nat)))) =
      Except.ok [some ([] : List Nat)] ∧
    ¬ ([some ([] : List Nat)] = [(Option.none : Option (List Nat))]) :=
  ⟨rfl, by decide⟩

/-- Claim C9 (corrected): over a nullable inner type, `_write_data`
reserves dictionary slot 0 for NULL (the written index starts with the
nested column's `null_value`, the empty string) and emits key 0 exactly
for the `None` items; and reading the written bytes back with a *fresh*
codec instance for the same spec — as `read_column` constructs — maps
key 0 back to `None` and yields `vs` with every `None` position
preserved.  (With the same instance the `None`s are lost, see the
counterexample; the bounds keep the dictionary within the key-width
table and the written lengths within `write_int64`'s range.) -/
theorem lc_nullable_roundtrip_fresh (vs : List (Option (List Nat))) (rest : List Nat)
    (hd : (lc_build_nullable vs []).1.length + 1 < 2 ^ 32)
    (hn : vs.length < 2 ^ 63) :
    ∃ dict keys bytes,
      lc_build_nullable vs [] = (dict, keys) ∧
      List.Forall₂ (fun x k => x = Option.none ↔ k = 0) vs keys ∧
      lc_write_data true vs = Except.ok (bytes, false) ∧
      bytes = write_int64_nonneg (lc_serialization_type (py_log2 (dict.length + 1) / 8)) ++
        write_int64_nonneg (dict.length + 1) ++ write_strs (([] : List Nat) :: dict) ++
        write_int64_nonneg vs.length ++
        write_uints (2 ^ (py_log2 (dict.length + 1) / 8)) keys ∧
      (lc_read_data true vs.length (bytes ++ rest)).map (fun r => r.1) = Except.ok vs := by
  rcases hbuild : lc_build_nullable vs [] with ⟨dict, keys⟩
  rw [hbuild] at hd
  dsimp only at hd
  obtain ⟨_, hall⟩ := lc_build_nullable_sound vs [] dict keys hbuild
  have hallkey : List.Forall₂ (fun x k => x = Option.none ↔ k = 0) vs keys :=
    List.Forall₂.imp (fun a b hab => hab.1) hall
  have hallget : List.Forall₂
      (fun x k => (Option.none :: dict.map some).get? k = some x) vs keys :=
    List.Forall₂.imp (fun a b hab => hab.2.2) hall
  have hkle : ∀ k ∈ keys, k ≤ dict.length := by
    intro k hk
    rcases forall2_right_mem hall k hk with ⟨x, hx⟩
    exact hx.2.1
  have hlenkeys : keys.length = vs.length := hall.length_eq.symm
  set t := py_log2 (dict.length + 1) / 8 with hT
  obtain ⟨ht3, hfull⟩ := lc_width_bound (dict.length + 1) (by omega) hd
  rw [← hT] at ht3 hfull
  have h4 : ¬ (4 ≤ t) := by omega
  have h64ser : lc_serialization_type t < 2 ^ 64 := by
    have h1 : lc_serialization_type t ≤ 1539 := by
      unfold lc_serialization_type
      omega
    have h2 : (1539 : Nat) < 2 ^ 64 := by norm_num
    omega
  have h64idx : dict.length + 1 < 2 ^ 64 := by
    have h2 : (2 : Nat) ^ 32 < 2 ^ 64 := by norm_num
    omega
  have h64n : vs.length < 2 ^ 64 := by
    have h2 : (2 : Nat) ^ 63 < 2 ^ 64 := by norm_num
    omega
  have hkt : lc_serialization_type t % 16 = t := by
    unfold lc_serialization_type
    omega
  have hkey256 : ∀ k ∈ keys, k < 256 ^ 2 ^ t := by
    intro k hk
    have h1 := hkle k hk
    have h2 : (256 : Nat) ^ 2 ^ t = 2 ^ (8 * 2 ^ t) := by
      rw [show (256 : Nat) = 2 ^ 8 from rfl, ← pow_mul]
    rw [h2]
    omega
  have hw : lc_write_data true vs = Except.ok
      (write_int64_nonneg (lc_serialization_type t) ++
       write_int64_nonneg (dict.length + 1) ++
       write_strs (([] : List Nat) :: dict) ++
       write_int64_nonneg vs.length ++ write_uints (2 ^ t) keys, false) := by
    simp only [lc_write_data, hbuild, except_bind_pure, if_true]
    simp only [List.length_cons]
    rw [if_neg (Nat.succ_ne_zero dict.length), ← hT, if_neg h4]
    rfl
  refine ⟨dict, keys, _, rfl, hallkey, hw, rfl, ?_⟩
  rcases Nat.eq_zero_or_pos vs.length with hvs0 | hvs0
  · have hnil : vs = [] := List.length_eq_zero.mp hvs0
    subst hnil
    simp [lc_read_data, except_map_ok]
  · have hne0 : ¬ (vs.length = 0) := by omega
    have h1 : read_uint64 (write_int64_nonneg (lc_serialization_type t) ++
        (write_int64_nonneg (dict.length + 1) ++ (write_strs (([] : List Nat) :: dict) ++
         (write_int64_nonneg vs.length ++ (write_uints (2 ^ t) keys ++ rest))))) =
        some (lc_serialization_type t,
          write_int64_nonneg (dict.length + 1) ++ (write_strs (([] : List Nat) :: dict) ++
          (write_int64_nonneg vs.length ++ (write_uints (2 ^ t) keys ++ rest)))) :=
      read_uint64_write _ _ h64ser
    have h2 : read_uint64 (write_int64_nonneg (dict.length + 1) ++
        (write_strs (([] : List Nat) :: dict) ++
         (write_int64_nonneg vs.length ++ (write_uints (2 ^ t) keys ++ rest)))) =
        some (dict.length + 1, write_strs (([] : List Nat) :: dict) ++
          (write_int64_nonneg vs.length ++ (write_uints (2 ^ t) keys ++ rest))) :=
      read_uint64_write _ _ h64idx
    have h3 : read_strs (dict.length + 1) (write_strs (([] : List Nat) :: dict) ++
        (write_int64_nonneg vs.length ++ (write_uints (2 ^ t) keys ++ rest))) =
        some (([] : List Nat) :: dict,
          write_int64_nonneg vs.length ++ (write_uints (2 ^ t) keys ++ rest)) := by
      have := read_strs_write (([] : List Nat) :: dict)
        (write_int64_nonneg vs.length ++ (write_uints (2 ^ t) keys ++ rest))
      simpa using this
    have h5 : read_uint64 (write_int64_nonneg vs.length ++
        (write_uints (2 ^ t) keys ++ rest)) =
        some (vs.length, write_uints (2 ^ t) keys ++ rest) :=
      read_uint64_write _ _ h64n
    have h6 : read_uints (2 ^ t) vs.length (write_uints (2 ^ t) keys ++ rest) =
        some (keys, rest) := by
      rw [← hlenkeys]
      exact read_uints_write (2 ^ t) keys rest hkey256
    have h7 : lc_map_keys (Option.none :: dict.map some) keys = Except.ok vs :=
      lc_map_keys_ok (Option.none :: dict.map some) vs keys hallget
    simp only [lc_read_data, if_neg hne0, List.append_assoc, h1, liftRead_some,
      except_bind_ok, hkt, if_neg h4, h2, h3, h5, h6, h7, if_true,
      List.drop_one, List.tail_cons, except_map_ok]
    rfl

theorem lc_nullable_roundtrip_fresh_witness :
    (lc_build_nullable [Option.none, some [97], Option.none, some [98]] []).1.length + 1 <
      2 ^ 32 ∧
    ([Option.none, some [97], Option.none, some [98]] :
      List (Option (List Nat))).length < 2 ^ 63 ∧
    (∃ dict keys bytes,
      lc_build_nullable [Option.none, some [97], Option.none, some [98]] [] =
        (dict, keys) ∧
      List.Forall₂ (fun x k => x = Option.none ↔ k = 0)
        [Option.none, some [97], Option.none, some [98]] keys ∧
      lc_write_data true [Option.none, some [97], Option.none, some [98]] =
        Except.ok (bytes, false) ∧
      bytes = write_int64_nonneg (lc_serialization_type (py_log2 (dict.length + 1) / 8)) ++
        write_int64_nonneg (dict.length + 1) ++ write_strs (([] : List Nat) :: dict) ++
        write_int64_nonneg ([Option.none, some [97], Option.none, some [98]] :
          List (Option (List Nat))).length ++
        write_uints (2 ^ (py_log2 (dict.length + 1) / 8)) keys ∧
      (lc_read_data true ([Option.none, some [97], Option.none, some [98]] :
          List (Option (List Nat))).length (bytes ++ [9])).map (fun r => r.1) =
        Except.ok [Option.none, some [97], Option.none, some [98]]) :=
  ⟨by decide, by decide,
   lc_nullable_roundtrip_fresh [Option.none, some [97], Option.none, some [98]] [9]
     (by decide) (by decide)⟩

end Asynch
